import Mathlib

/-!
Shallow embedding of the ironic-inspector node cache and introspection
orchestration (files `ironic_inspector/node_cache.py` and
`ironic_inspector/introspect.py`).

The SQLite database is modelled as three lists of rows mirroring the schema:
`nodes (uuid primary key, started_at, finished_at, error)`,
`attributes (name, value, uuid)` with primary key `(name, value)`, and
`options (uuid, name, value)` with primary key `(uuid, name)`.
Timestamps are integers (`time.time()` values); a SQL `NULL` column is an
`Option` that is `none`.  Every mutating operation runs inside a sqlite3
connection context manager that rolls back on an exception, so each is
modelled as a total function returning the post-state together with an
optional error; on an error the returned post-state is the unchanged
pre-state (the rollback).
-/

set_option autoImplicit false

namespace IronicInspector

/-- One row of the `nodes` table. -/
structure NodeRow where
  uuid : String
  started_at : Int
  finished_at : Option Int
  error : Option String
deriving DecidableEq, Repr

/-- One row of the `attributes` table (primary key `(name, value)`). -/
structure AttrRow where
  name : String
  value : String
  uuid : String
deriving DecidableEq, Repr

/-- A JSON value stored in the `options` table.  The only option this
program ever writes is `new_ipmi_credentials`, whose value is either JSON
`null` (no credentials supplied) or the two-element credentials tuple. -/
inductive OptVal where
  | null : OptVal
  | creds : String → String → OptVal
deriving DecidableEq, Repr

/-- One row of the `options` table (primary key `(uuid, name)`). -/
structure OptRow where
  uuid : String
  name : String
  value : OptVal
deriving DecidableEq, Repr

/-- The whole database state. -/
structure Store where
  nodes : List NodeRow
  attrs : List AttrRow
  opts : List OptRow
deriving DecidableEq, Repr

/-- A Python value passed as an attribute criterion: `None`, a single
string, or a list of strings (`find_node` / `add_node` accept any of
these; a non-list truthy value is wrapped into a one-element list). -/
inductive AttrArg where
  | nullArg : AttrArg
  | one : String → AttrArg
  | many : List String → AttrArg
deriving DecidableEq, Repr

/-- Python falsiness of an attribute value (`if not value: continue`):
`None`, the empty string and the empty list are falsy. -/
def AttrArg.falsy : AttrArg → Bool
  | .nullArg => true
  | .one s => s == ""
  | .many l => l.isEmpty

/-- The list-wrapped form (`if not isinstance(value, list): value = [value]`). -/
def AttrArg.toList : AttrArg → List String
  | .nullArg => []
  | .one s => [s]
  | .many l => l

/-- The reserved `mac` attribute name (`MACS_ATTRIBUTE`). -/
def MACS_ATTRIBUTE : String := "mac"

/-- The error text recorded by `clean_up` for a timed-out session. -/
def timeoutErrorMsg : String := "Introspection timeout"

/-- `uuid` is the primary key of `nodes`: all rows carry distinct uuids. -/
def nodesUnique : List NodeRow → Bool
  | [] => true
  | n :: rest => rest.all (fun m => m.uuid != n.uuid) && nodesUnique rest

/-- `(name, value)` is the primary key of `attributes`: all rows carry
distinct `(name, value)` pairs. -/
def attrsUnique : List AttrRow → Bool
  | [] => true
  | a :: rest => rest.all (fun b => !(b.name == a.name && b.value == a.value)) && attrsUnique rest

/-! ### `NodeInfo.add_attribute` -/

/-- The payload of the `utils.Error` raised on a duplicate attribute:
the attribute name and the (list-wrapped) values of the failed call,
both of which appear in the rendered message. -/
structure DupErr where
  name : String
  values : List String
deriving DecidableEq, Repr

/-- The rendered message of the duplicate-attribute `utils.Error`. -/
def dupMsg (name : String) (values : List String) : String :=
  "Some or all of " ++ name ++ " values " ++ String.intercalate ", " values ++
    " are already on introspection"

/-- `cursor.executemany` over the `attributes` table: rows are inserted one
at a time; the first row violating the `(name, value)` primary key raises
`sqlite3.IntegrityError`, modelled as `none`. -/
def insertMany : List AttrRow → List AttrRow → Option (List AttrRow)
  | [], table => some table
  | r :: rs, table =>
    if table.any (fun a => a.name == r.name && a.value == r.value) then none
    else insertMany rs (table ++ [r])

/-- `NodeInfo.add_attribute`: inserts one `(name, v, uuid)` row per value.
On an integrity error the surrounding connection context manager rolls the
transaction back, so the post-state is the unchanged pre-state and the
call reports a `DupErr`. -/
def add_attribute (name : String) (arg : AttrArg) (uuid : String) (st : Store) :
    Store × Option DupErr :=
  match insertMany (arg.toList.map (fun v => AttrRow.mk name v uuid)) st.attrs with
  | some t => ({ st with attrs := t }, none)
  | none => (st, some ⟨name, arg.toList⟩)

/-! ### `find_node` -/

/-- The result handle of a successful `find_node` (uuid plus the current
`started_at` read from the row). -/
structure NodeInfo where
  uuid : String
  started_at : Int
deriving DecidableEq, Repr

/-- The failure modes of `find_node`.  In the Python source all four are
`utils.Error` subclasses/instances with distinct messages; the payloads
record what the messages interpolate: `multipleMatch` lists every
candidate id and `alreadyFinished` carries the finish timestamp. -/
inductive FindErr where
  | notFound : FindErr
  | multipleMatch : List String → FindErr
  | nodeGone : String → FindErr
  | alreadyFinished : String → Int → FindErr
deriving DecidableEq, Repr

/-- The SQL query of one `find_node` criterion:
`select distinct uuid from attributes where (name=? and value=?) or ...`. -/
def matchRows (name : String) (vals : List String) (attrs : List AttrRow) : List String :=
  (attrs.filter (fun a => a.name == name && decide (a.value ∈ vals))).map (·.uuid)

/-- The candidate set accumulated by `find_node`: skip falsy criteria, run
the per-name query, and take the union (`found.update(...)` on a Python
set, modelled as a deduplicated list). -/
def foundIds (criteria : List (String × AttrArg)) (attrs : List AttrRow) : List String :=
  (((criteria.filter (fun p => !p.2.falsy)).map
      (fun p => matchRows p.1 p.2.toList attrs)).flatten).dedup

/-- `find_node`: build the candidate union, then fail on an empty union,
fail listing all ids on an ambiguous union, and otherwise check the unique
candidate row.  The finished check is a Python truthiness test, so a
finish timestamp of `0` would (vacuously, since real timestamps are
positive) be treated as not finished. -/
def find_node (criteria : List (String × AttrArg)) (st : Store) : Except FindErr NodeInfo :=
  match foundIds criteria st.attrs with
  | [] => .error .notFound
  | u :: rest =>
    if rest.isEmpty then
      match st.nodes.find? (fun n => n.uuid == u) with
      | none => .error (.nodeGone u)
      | some n =>
        match n.finished_at with
        | some t => if t == 0 then .ok ⟨u, n.started_at⟩ else .error (.alreadyFinished u t)
        | none => .ok ⟨u, n.started_at⟩
    else .error (.multipleMatch (u :: rest))

/-- The wording used by the spec for the candidate set (refinement comparator for the
lookup): the union across all attribute names of the sessions whose
attribute table contains any `(name, value)` match from the listed values
for that name. -/
def specCandidate (criteria : List (String × AttrArg)) (st : Store) (u : String) : Prop :=
  ∃ p ∈ criteria, p.2.falsy = false ∧
    ∃ a ∈ st.attrs, a.name = p.1 ∧ a.value ∈ p.2.toList ∧ a.uuid = u

instance (criteria : List (String × AttrArg)) (st : Store) (u : String) :
    Decidable (specCandidate criteria st u) := by
  unfold specCandidate
  infer_instance

/-! ### `NodeInfo.finished`, `set_option`, `add_node` -/

/-- `NodeInfo.finished`: record `finished_at = now` and the error on the
row (an `update ... where uuid=?`, a no-op when no row matches) and delete
every attribute and option row of the session. -/
def finished (e : Option String) (now : Int) (uuid : String) (st : Store) : Store :=
  { nodes := st.nodes.map (fun n =>
      if n.uuid == uuid then { n with finished_at := some now, error := e } else n),
    attrs := st.attrs.filter (fun a => a.uuid != uuid),
    opts := st.opts.filter (fun o => o.uuid != uuid) }

/-- `NodeInfo.set_option`: delete any row for `(uuid, name)` and insert the
new value (an upsert). -/
def setOption (uuid name : String) (v : OptVal) (st : Store) : Store :=
  { st with opts := st.opts.filter (fun o => !(o.uuid == uuid && o.name == name)) ++
      [⟨uuid, name, v⟩] }

/-- Read one option of a session, as the `options` property does
(`select name, value from options where uuid=?` into a dict). -/
def getOption (st : Store) (uuid name : String) : Option OptVal :=
  (st.opts.find? (fun o => o.uuid == uuid && o.name == name)).map (·.value)

/-- The attribute-attachment loop of `add_node`: skip falsy values and
attach the rest inside the shared transaction; the first duplicate aborts
with its `DupErr`. -/
def attachAll : List (String × AttrArg) → String → List AttrRow → Except DupErr (List AttrRow)
  | [], _, table => .ok table
  | p :: ps, uuid, table =>
    if p.2.falsy then attachAll ps uuid table
    else
      match insertMany (p.2.toList.map (fun v => AttrRow.mk p.1 v uuid)) table with
      | some t => attachAll ps uuid t
      | none => .error ⟨p.1, p.2.toList⟩

/-- `add_node`: in one transaction, delete the prior row and all its
attribute and option rows, insert a fresh row with `started_at = now` and
absent `finished_at`/`error`, then attach each non-empty initial
attribute.  A duplicate attribute rolls the whole transaction back. -/
def add_node (uuid : String) (attributes : List (String × AttrArg)) (now : Int)
    (st : Store) : Store × Option DupErr :=
  let base : Store :=
    { nodes := st.nodes.filter (fun n => n.uuid != uuid) ++ [⟨uuid, now, none, none⟩],
      attrs := st.attrs.filter (fun a => a.uuid != uuid),
      opts := st.opts.filter (fun o => o.uuid != uuid) }
  match attachAll attributes uuid base.attrs with
  | .ok t => ({ base with attrs := t }, none)
  | .error d => (st, some d)

/-! ### `clean_up` -/

/-- The SQL predicate `finished_at < threshold` (false on `NULL`). -/
def finishedBefore (n : NodeRow) (thr : Int) : Bool :=
  match n.finished_at with
  | some t => t < thr
  | none => false

/-- Part (a) of `clean_up`: `delete from nodes where finished_at < ?`
with the retention threshold `now - keep` (`CONF.node_status_keep_time`). -/
def sweepDelete (now keep : Int) (st : Store) : Store :=
  { st with nodes := st.nodes.filter (fun n => !finishedBefore n (now - keep)) }

/-- The SQL predicate `started_at < ? and finished_at is null` selecting
the timed-out sessions. -/
def timedOutPred (thr : Int) (n : NodeRow) : Bool :=
  decide (n.started_at < thr) && n.finished_at.isNone

/-- The uuids selected as timed out. -/
def timedOutIds (thr : Int) (st : Store) : List String :=
  (st.nodes.filter (timedOutPred thr)).map (·.uuid)

/-- Part (b) of `clean_up`: disabled for a non-positive `CONF.timeout`;
otherwise select the active sessions started before `now - timeout`,
mark each finished with the fixed timeout error, purge their attribute
and option rows and return their uuids. -/
def sweepTimeout (now timeout : Int) (st : Store) : List String × Store :=
  if timeout ≤ 0 then ([], st)
  else if (timedOutIds (now - timeout) st).isEmpty then ([], st)
  else
    (timedOutIds (now - timeout) st,
      { nodes := st.nodes.map (fun n =>
          if timedOutPred (now - timeout) n then
            { n with finished_at := some now, error := some timeoutErrorMsg }
          else n),
        attrs := st.attrs.filter (fun a => !decide (a.uuid ∈ timedOutIds (now - timeout) st)),
        opts := st.opts.filter (fun o => !decide (o.uuid ∈ timedOutIds (now - timeout) st)) })

/-- `clean_up`: the retention deletion followed by the timeout pass.  All
`time.time()` reads within the single pass are the same logical instant
`now`. -/
def clean_up (now keep timeout : Int) (st : Store) : List String × Store :=
  sweepTimeout now timeout (sweepDelete now keep st)

/-! ### `introspect.py` -/

/-- The Ironic node record as far as the introspection entry point reads
it: uuid, maintenance flag, and the `ipmi_username` driver info entry. -/
structure IrNode where
  uuid : String
  maintenance : Bool
  ipmi_username : Option String
deriving DecidableEq, Repr

/-- Message of the `utils.Error` raised when credentials setup is disabled. -/
def credsDisabledMsg : String := "IPMI credentials setup is disabled in configuration"

/-- Message of the `utils.Error` raised outside maintenance mode. -/
def maintenanceMsg : String :=
  "Node should be in maintenance mode to set IPMI credentials on it"

/-- Message of the `utils.Error` raised when no user name is available. -/
def noUsernameMsg (uuid : String) : String :=
  "Setting IPMI credentials requested for node " ++ uuid ++
    " but neither new user name nor driver_info ipmi_username are provided"

/-- Message of the `utils.Error` raised on forbidden password characters. -/
def forbiddenCharsMsg (uuid : String) (chars : List Char) : String :=
  "Forbidden characters encountered in new IPMI password for node " ++ uuid ++
    ": " ++ String.mk chars ++ "; use only letters and numbers"

/-- Message of the `utils.Error` raised on a bad password length. -/
def passwordLengthMsg : String := "IPMI password length should be > 0 and <= 20"

/-- The user name actually used: the caller-supplied one, with a falsy
value replaced by the `ipmi_username` driver info (absent modelled as `""`). -/
def effectiveUsername (node : IrNode) (username : String) : String :=
  if username = "" then node.ipmi_username.getD "" else username

/-- The set of characters of the new password outside
`PASSWORD_ACCEPTED_CHARS` (ASCII letters and digits). -/
def wrongChars (password : String) : List Char :=
  password.toList.filter (fun c => !c.isAlphanum)

/-- `_validate_ipmi_credentials`: credential setting must be enabled in the
configuration, the node must be in maintenance mode, a user name must come
from the caller or from `driver_info`, and the password must consist only
of ASCII letters and digits (`PASSWORD_ACCEPTED_CHARS`) with
`0 < len <= 20` (`PASSWORD_MAX_LENGTH`).  Python falsiness of the user
name strings is the empty string. -/
def validate_ipmi_credentials (enabled : Bool) (node : IrNode)
    (username password : String) : Except String (String × String) :=
  if !enabled then .error credsDisabledMsg
  else if !node.maintenance then .error maintenanceMsg
  else if effectiveUsername node username = "" then .error (noUsernameMsg node.uuid)
  else if !(wrongChars password).isEmpty then
    .error (forbiddenCharsMsg node.uuid (wrongChars password))
  else if !(decide (0 < password.length) && decide (password.length ≤ 20)) then
    .error passwordLengthMsg
  else .ok (effectiveUsername node username, password)

/-- A Python exception inside the background task: `utils.Error` (caught
by the first `except` clause of `_handle_exceptions`, which records its
string) or any other exception (caught by the second clause, which
records a fixed message). -/
inductive PyExc where
  | utilsError : String → PyExc
  | otherExc : String → PyExc
deriving DecidableEq, Repr

/-- The fixed message recorded when a non-`utils.Error` exception escapes
the background task. -/
def unexpectedMsg : String := "Unexpected exception in background introspection thread"

/-- Message of the fatal `utils.Error` raised when the power reboot fails. -/
def powerFailMsg (uuid excMsg : String) : String :=
  "Failed to power on node " ++ uuid ++
    ", check its power management configuration: " ++ excMsg

/-- Outcomes of the external calls made by one background task run:
listing the node ports (yielding its MAC addresses, or an exception),
the firewall filter update, the boot-device call and the power call
(`some msg` is an exception with that message, after the retry helper
has given up). -/
structure BgEnv where
  portsResult : Except String (List String)
  firewallResult : Option String
  bootResult : Option String
  powerResult : Option String
deriving Repr

/-- Python truthiness of the `new_ipmi_credentials` option lookup:
true exactly when the option holds a credentials tuple (absent keys and
JSON `null` are falsy). -/
def newCredsTruthy (st : Store) (uuid : String) : Bool :=
  match getOption st uuid "new_ipmi_credentials" with
  | some (OptVal.creds _ _) => true
  | _ => false

/-- The first phase of `_background_introspect`: list the ports (an
exception aborts), and if MAC addresses were found attach them as the
`mac` attribute (a duplicate raises `utils.Error`) and update the
firewall filters (an exception aborts). -/
def bgPhase1 (portsResult : Except String (List String)) (firewallResult : Option String)
    (uuid : String) (st : Store) : Store × Option PyExc :=
  match portsResult with
  | .error e => (st, some (.otherExc e))
  | .ok macs =>
    if macs.isEmpty then (st, none)
    else
      match add_attribute MACS_ATTRIBUTE (.many macs) uuid st with
      | (st', some d) => (st', some (.utilsError (dupMsg d.name d.values)))
      | (st', none) =>
        match firewallResult with
        | some e => (st', some (.otherExc e))
        | none => (st', none)

/-- The credential branch of `_background_introspect`.  With truthy new
credentials the task only logs that a manual power-on is required.
Otherwise it sets the boot device to PXE — a failure there is only
logged as a warning (`bootResult` is deliberately unused beyond the log)
— and then requests a reboot, whose failure raises the fatal
`utils.Error`. -/
def bgBranch (bootResult powerResult : Option String) (uuid : String) (st : Store) :
    Store × Option PyExc :=
  if newCredsTruthy st uuid then (st, none)
  else
    -- set_boot_device: `except Exception: LOG.warning(...)` — no state change
    match bootResult, powerResult with
    | _, some e => (st, some (.utilsError (powerFailMsg uuid e)))
    | _, none => (st, none)

/-- `_background_introspect` as spawned for one session: phase 1 followed
by the credential branch; the pair carries the store as mutated so far
plus the exception that escaped, if any. -/
def background_introspect (env : BgEnv) (uuid : String) (st : Store) :
    Store × Option PyExc :=
  match bgPhase1 env.portsResult env.firewallResult uuid st with
  | (st', some e) => (st', some e)
  | (st', none) => bgBranch env.bootResult env.powerResult uuid st'

/-- `_handle_exceptions`, the closure actually spawned by `introspect`:
run the background task and convert any escaping exception into the
terminal error of the session via `finished` — a `utils.Error` records its own
message, anything else records `unexpectedMsg`.  The function is total:
no exception propagates to the spawning caller. -/
def handle_exceptions (env : BgEnv) (uuid : String) (now : Int) (st : Store) : Store :=
  match background_introspect env uuid st with
  | (st', none) => st'
  | (st', some (.utilsError m)) => finished (some m) now uuid st'
  | (st', some (.otherExc _)) => finished (some unexpectedMsg) now uuid st'

/-- Modelled from the spec: `utils.check_provision_state` (module
`ironic_inspector/utils.py`, not part of this excerpt) checks the remote
node against an allow-list of provision states; its outcome is carried
as a boolean and a failure aborts with an error before session creation. -/
def provisionStateMsg (uuid : String) : String :=
  "Invalid provision state for introspection of node " ++ uuid

/-- Message of the `utils.Error` raised when the remote power-interface
validation reports a failure. -/
def powerValidateMsg (uuid reason : String) : String :=
  "Failed validation of power interface for node " ++ uuid ++ ", reason: " ++ reason

/-- Outcomes of the external calls made by the synchronous part of
`introspect`: the node fetch (with `NotFound`/`HttpError` collapsed into
their messages), `utils.check_provision_state`, the remote power
validation (its boolean result and its reason string),
`CONF.processing.enable_setting_ipmi_credentials`, and
`utils.get_ipmi_address(node)`. -/
structure IntroEnv where
  nodeResult : Except String IrNode
  provisionOk : Bool
  powerOk : Bool
  powerReason : String
  enableCreds : Bool
  bmc : Option String
deriving Repr

/-- The `bmc_address` keyword value handed to `add_node`:
`utils.get_ipmi_address` yields a string or `None`. -/
def bmcArg : Option String → AttrArg
  | some s => .one s
  | none => .nullArg

/-- The option value stored for `new_ipmi_credentials`: JSON `null` when
no credentials were supplied, else the validated tuple. -/
def credsVal : Option (String × String) → OptVal
  | none => .null
  | some (u, p) => .creds u p

/-- Step 3 of `introspect`: local credential validation when new
credentials are supplied, the remote power-interface validation
otherwise. -/
def credsStep (env : IntroEnv) (uuid : String) (node : IrNode)
    (newCreds : Option (String × String)) : Except String (Option (String × String)) :=
  match newCreds with
  | some (u, p) => (validate_ipmi_credentials env.enableCreds node u p).map some
  | none =>
    if env.powerOk then .ok none
    else .error (powerValidateMsg uuid env.powerReason)

/-- The synchronous part of `introspect`: fetch the node, check its
provision state, run the credential branch, create the session seeded
with the BMC address, and store the `new_ipmi_credentials` option.  Any
failure returns the unchanged store with the error; afterwards
`_handle_exceptions` is spawned. -/
def introspect (env : IntroEnv) (uuid : String) (newCreds : Option (String × String))
    (now : Int) (st : Store) : Store × Option String :=
  match env.nodeResult with
  | .error e => (st, some e)
  | .ok node =>
    if env.provisionOk then
      match credsStep env uuid node newCreds with
      | .error m => (st, some m)
      | .ok creds =>
        match add_node uuid [("bmc_address", bmcArg env.bmc)] now st with
        | (_, some d) => (st, some (dupMsg d.name d.values))
        | (st1, none) =>
          (setOption uuid "new_ipmi_credentials" (credsVal creds) st1, none)
    else (st, some (provisionStateMsg uuid))

/-! ### Helper lemmas -/

/-- A successful `executemany` appends exactly the given rows. -/
lemma insertMany_some {rows table t : List AttrRow} (h : insertMany rows table = some t) :
    t = table ++ rows := by
  induction rows generalizing table with
  | nil => simp [insertMany] at h; simp [h]
  | cons r rs ih =>
    rw [insertMany] at h
    split at h
    · exact absurd h (by simp)
    · have := ih h
      simpa using this

/-- `executemany` hits an integrity error whenever some row to insert
collides with a row already in the table. -/
lemma insertMany_none_of_dup {rows table : List AttrRow}
    (h : ∃ r ∈ rows, ∃ a ∈ table, a.name = r.name ∧ a.value = r.value) :
    insertMany rows table = none := by
  induction rows generalizing table with
  | nil => simp at h
  | cons r rs ih =>
    rw [insertMany]
    split
    · rfl
    · rename_i hany
      obtain ⟨x, hx, a, ha, hn, hv⟩ := h
      rcases List.mem_cons.mp hx with rfl | hx
      · exact absurd (List.any_eq_true.mpr ⟨a, ha, by simp [hn, hv]⟩) hany
      · exact ih ⟨x, hx, a, List.mem_append_left _ ha, hn, hv⟩

/-- The rows attached by `add_node` for a list of initial attributes. -/
def newRowsList (ps : List (String × AttrArg)) (uuid : String) : List AttrRow :=
  ((ps.filter (fun p => !p.2.falsy)).map
    (fun p => p.2.toList.map (fun v => AttrRow.mk p.1 v uuid))).flatten

/-- A successful attachment loop appends exactly the rows of the
non-falsy attributes. -/
lemma attachAll_ok {ps : List (String × AttrArg)} {uuid : String}
    {table t : List AttrRow} (h : attachAll ps uuid table = .ok t) :
    t = table ++ newRowsList ps uuid := by
  induction ps generalizing table with
  | nil => simp [attachAll] at h; simp [h, newRowsList]
  | cons p ps ih =>
    rw [attachAll] at h
    split at h
    · rename_i hf
      have := ih h
      simp [this, newRowsList, hf]
    · rename_i hf
      split at h
      · rename_i t' hins
        have h1 := insertMany_some hins
        have h2 := ih h
        simp [h2, h1, newRowsList, hf, List.append_assoc]
      · exact absurd h (by simp)

/-- Membership in the candidate union built by `find_node`. -/
lemma mem_foundIds {criteria : List (String × AttrArg)} {attrs : List AttrRow} {u : String} :
    u ∈ foundIds criteria attrs ↔
      ∃ p ∈ criteria, p.2.falsy = false ∧
        ∃ a ∈ attrs, a.name = p.1 ∧ a.value ∈ p.2.toList ∧ a.uuid = u := by
  rw [foundIds, List.mem_dedup, List.mem_flatten]
  constructor
  · rintro ⟨l, hl, hu⟩
    rw [List.mem_map] at hl
    obtain ⟨p, hp, rfl⟩ := hl
    rw [List.mem_filter, Bool.not_eq_true'] at hp
    rw [matchRows, List.mem_map] at hu
    obtain ⟨a, ha, rfl⟩ := hu
    rw [List.mem_filter, Bool.and_eq_true, beq_iff_eq, decide_eq_true_eq] at ha
    exact ⟨p, hp.1, hp.2, a, ha.1, ha.2.1, ha.2.2, rfl⟩
  · rintro ⟨p, hp, hf, a, ha, hn, hv, rfl⟩
    refine ⟨matchRows p.1 p.2.toList attrs, ?_, ?_⟩
    · rw [List.mem_map]
      exact ⟨p, List.mem_filter.mpr ⟨hp, by simp [hf]⟩, rfl⟩
    · rw [matchRows, List.mem_map]
      exact ⟨a, List.mem_filter.mpr ⟨ha, by simp [hn, hv]⟩, rfl⟩

/-- A duplicate-free list whose members are exactly `u` is `[u]`. -/
lemma nodup_eq_singleton {l : List String} {u : String} (hd : l.Nodup)
    (h : ∀ x, x ∈ l ↔ x = u) : l = [u] := by
  match l, hd with
  | [], _ => exact absurd ((h u).mpr rfl) (by simp)
  | [x], _ => simp [(h x).mp (by simp)]
  | x :: y :: t, hd =>
    have hx : x = u := (h x).mp (by simp)
    have hy : y = u := (h y).mp (by simp)
    rw [List.nodup_cons] at hd
    exact absurd (hx ▸ hy ▸ List.mem_cons_self u t) hd.1

/-- The Bool primary-key check on `nodes` as a `Pairwise` statement. -/
lemma nodesUnique_pairwise {l : List NodeRow} (hu : nodesUnique l = true) :
    l.Pairwise (fun a b => a.uuid ≠ b.uuid) := by
  induction l with
  | nil => simp
  | cons x t ih =>
    rw [nodesUnique, Bool.and_eq_true, List.all_eq_true] at hu
    refine List.Pairwise.cons (fun b hb => ?_) (ih hu.2)
    have := hu.1 b hb
    rw [bne_iff_ne] at this
    exact fun h => this h.symm

/-- `nodes` rows with equal uuids are the same row when the primary key
holds. -/
lemma nodesUnique_eq {l : List NodeRow} {a b : NodeRow} (hu : nodesUnique l = true)
    (ha : a ∈ l) (hb : b ∈ l) (h : a.uuid = b.uuid) : a = b := by
  by_contra hne
  have hsym : Symmetric (fun a b : NodeRow => a.uuid ≠ b.uuid) :=
    fun x y hxy => fun hc => hxy hc.symm
  exact (nodesUnique_pairwise hu).forall hsym ha hb hne h

/-- The Bool primary-key check on `attributes` as a `Pairwise` statement. -/
lemma attrsUnique_pairwise {l : List AttrRow} (hu : attrsUnique l = true) :
    l.Pairwise (fun a b => ¬(a.name = b.name ∧ a.value = b.value)) := by
  induction l with
  | nil => simp
  | cons x t ih =>
    rw [attrsUnique, Bool.and_eq_true, List.all_eq_true] at hu
    refine List.Pairwise.cons (fun b hb => ?_) (ih hu.2)
    have := hu.1 b hb
    rw [Bool.not_eq_true', Bool.and_eq_false_iff] at this
    rintro ⟨hn, hv⟩
    rcases this with h | h <;> rw [beq_eq_false_iff_ne] at h
    · exact h hn.symm
    · exact h hv.symm

/-- `attributes` rows with equal `(name, value)` are the same row when
the primary key holds. -/
lemma attrsUnique_eq {l : List AttrRow} {a b : AttrRow} (hu : attrsUnique l = true)
    (ha : a ∈ l) (hb : b ∈ l) (hn : a.name = b.name) (hv : a.value = b.value) : a = b := by
  by_contra hne
  have hsym : Symmetric (fun a b : AttrRow => ¬(a.name = b.name ∧ a.value = b.value)) :=
    fun x y hxy => fun hc => hxy ⟨hc.1.symm, hc.2.symm⟩
  exact (attrsUnique_pairwise hu).forall hsym ha hb hne ⟨hn, hv⟩

/-- `find?` on the nodes table returns the member row with the sought
uuid when the primary key holds. -/
lemma find?_nodes {l : List NodeRow} {n : NodeRow} {u : String}
    (hu : nodesUnique l = true) (hn : n ∈ l) (heq : n.uuid = u) :
    l.find? (fun m => m.uuid == u) = some n := by
  induction l with
  | nil => simp at hn
  | cons x t ih =>
    rw [nodesUnique, Bool.and_eq_true, List.all_eq_true] at hu
    rcases List.mem_cons.mp hn with rfl | hn
    · simp [List.find?, heq]
    · have hne : ¬n.uuid = x.uuid := by
        have := hu.1 n hn
        rwa [bne_iff_ne] at this
      have hx : (x.uuid == u) = false := by
        rw [beq_eq_false_iff_ne]
        exact fun h => hne (heq.trans h.symm)
      simp only [List.find?, hx]
      exact ih hu.2 hn

/-- `find?` over an appended singleton whose prefix has no match. -/
lemma find?_append_single {α : Type} {l : List α} {p : α → Bool} {r : α}
    (h : ∀ x ∈ l, p x = false) (hr : p r = true) :
    (l ++ [r]).find? p = some r := by
  induction l with
  | nil => simp [List.find?, hr]
  | cons x t ih =>
    have hx := h x (by simp)
    simp only [List.cons_append, List.find?, hx]
    exact ih (fun y hy => h y (by simp [hy]))

/-- `add_attribute` only touches the `attributes` table. -/
lemma add_attribute_nodes_opts (name : String) (arg : AttrArg) (uuid : String) (st : Store) :
    (add_attribute name arg uuid st).1.nodes = st.nodes ∧
      (add_attribute name arg uuid st).1.opts = st.opts := by
  unfold add_attribute
  split <;> simp

/-- The credential branch of the background task never mutates the store. -/
lemma bgBranch_fst (b p : Option String) (uuid : String) (st : Store) :
    (bgBranch b p uuid st).1 = st := by
  unfold bgBranch
  split
  · rfl
  · cases b <;> cases p <;> rfl

/-- Phase 1 of the background task never touches `nodes` or `options`. -/
lemma bgPhase1_nodes_opts (pr : Except String (List String)) (fr : Option String)
    (uuid : String) (st : Store) :
    (bgPhase1 pr fr uuid st).1.nodes = st.nodes ∧
      (bgPhase1 pr fr uuid st).1.opts = st.opts := by
  unfold bgPhase1
  cases pr with
  | error e => exact ⟨rfl, rfl⟩
  | ok macs =>
    simp only
    split
    · exact ⟨rfl, rfl⟩
    · rcases h : add_attribute MACS_ATTRIBUTE (.many macs) uuid st with ⟨st', d⟩
      have hst' := add_attribute_nodes_opts MACS_ATTRIBUTE (.many macs) uuid st
      rw [h] at hst'
      cases d with
      | some d => simpa using hst'
      | none => cases fr <;> simpa using hst'

/-- Membership in the rows attached by a successful `add_node`. -/
lemma mem_newRowsList {ps : List (String × AttrArg)} {uuid : String} {r : AttrRow} :
    r ∈ newRowsList ps uuid ↔
      ∃ p ∈ ps, p.2.falsy = false ∧ ∃ v ∈ p.2.toList, r = AttrRow.mk p.1 v uuid := by
  rw [newRowsList, List.mem_flatten]
  constructor
  · rintro ⟨l, hl, hr⟩
    rw [List.mem_map] at hl
    obtain ⟨p, hp, rfl⟩ := hl
    rw [List.mem_filter, Bool.not_eq_true'] at hp
    rw [List.mem_map] at hr
    obtain ⟨v, hv, rfl⟩ := hr
    exact ⟨p, hp.1, hp.2, v, hv, rfl⟩
  · rintro ⟨p, hp, hf, v, hv, rfl⟩
    refine ⟨p.2.toList.map (fun v => AttrRow.mk p.1 v uuid), ?_, ?_⟩
    · rw [List.mem_map]
      exact ⟨p, List.mem_filter.mpr ⟨hp, by simp [hf]⟩, rfl⟩
    · rw [List.mem_map]
      exact ⟨v, hv, rfl⟩

/-- Reading back an option just written by the upsert. -/
lemma getOption_setOption (uuid name : String) (v : OptVal) (st : Store) :
    getOption (setOption uuid name v st) uuid name = some v := by
  unfold getOption setOption
  dsimp only
  have h1 : (List.filter (fun o => !(o.uuid == uuid && o.name == name)) st.opts ++
      [OptRow.mk uuid name v]).find? (fun o => o.uuid == uuid && o.name == name) =
      some (OptRow.mk uuid name v) := by
    apply find?_append_single
    · intro x hx
      have := (List.mem_filter.mp hx).2
      rwa [Bool.not_eq_true'] at this
    · simp
  rw [h1]
  rfl

/-- After the timeout pass, no surviving row is both active and stale:
every selected row got its `finished_at` set. -/
lemma sweepTimeout_no_stale {now timeout : Int} {st : Store} (ht : ¬timeout ≤ 0) :
    ∀ n ∈ (sweepTimeout now timeout st).2.nodes, timedOutPred (now - timeout) n = false := by
  unfold sweepTimeout
  rw [if_neg ht]
  split
  · rename_i hempty
    have : st.nodes.filter (timedOutPred (now - timeout)) = [] := by
      have := List.isEmpty_iff.mp hempty
      unfold timedOutIds at this
      exact List.map_eq_nil_iff.mp this
    intro n hn
    by_contra hp
    rw [Bool.not_eq_false] at hp
    exact absurd (List.mem_filter.mpr ⟨hn, hp⟩) (by rw [this]; simp)
  · intro n hn
    simp only [List.mem_map] at hn
    obtain ⟨o, ho, rfl⟩ := hn
    by_cases hp : timedOutPred (now - timeout) o = true
    · rw [if_pos hp]
      simp [timedOutPred]
    · rw [if_neg hp]
      exact Bool.not_eq_true _ ▸ hp

/-- First projection of the timeout pass when nothing is stale. -/
lemma sweepTimeout_fst_nil {now timeout : Int} {st : Store}
    (h : ∀ n ∈ st.nodes, timedOutPred (now - timeout) n = false) :
    (sweepTimeout now timeout st).1 = [] := by
  unfold sweepTimeout
  have hids : timedOutIds (now - timeout) st = [] := by
    unfold timedOutIds
    rw [List.filter_eq_nil_iff.mpr (fun a ha => by simp [h a ha])]
    rfl
  split
  · rfl
  · rw [if_pos (by rw [hids]; rfl)]

/-- Every row surviving the whole sweep descends from a row of the input
store with the same uuid. -/
lemma sweepTimeout_nodes_sub {now timeout : Int} {st : Store} :
    ∀ m ∈ (sweepTimeout now timeout st).2.nodes, ∃ o ∈ st.nodes, m.uuid = o.uuid := by
  unfold sweepTimeout
  split
  · exact fun m hm => ⟨m, hm, rfl⟩
  · split
    · exact fun m hm => ⟨m, hm, rfl⟩
    · intro m hm
      simp only [List.mem_map] at hm
      obtain ⟨o, ho, rfl⟩ := hm
      refine ⟨o, ho, ?_⟩
      split <;> rfl

/-- The background task never touches the `nodes` table (it only adds
attribute rows); only `finished` in the exception handler does. -/
lemma background_introspect_nodes (env : BgEnv) (uuid : String) (st : Store) :
    (background_introspect env uuid st).1.nodes = st.nodes := by
  unfold background_introspect
  rcases henv : bgPhase1 env.portsResult env.firewallResult uuid st with ⟨st', e⟩
  have hst' : st'.nodes = st.nodes := by
    have := (bgPhase1_nodes_opts env.portsResult env.firewallResult uuid st).1
    rwa [henv] at this
  cases e with
  | none => simpa [bgBranch_fst] using hst'
  | some e => simpa using hst'

/-! ### Claim theorems -/

/-- C2: if any `(name, value)` pair among the supplied values already
exists in the attributes table — for the same or a different session —
`add_attribute` fails with the duplicate-attribute error naming the
offending name and the (list-wrapped) values, and the store is returned
unchanged: no partial insert survives the rolled-back transaction. -/
theorem C2_add_attribute_duplicate (name : String) (arg : AttrArg) (uuid : String)
    (st : Store)
    (hdup : ∃ v ∈ arg.toList, ∃ a ∈ st.attrs, a.name = name ∧ a.value = v) :
    add_attribute name arg uuid st = (st, some ⟨name, arg.toList⟩) := by
  unfold add_attribute
  have hnone : insertMany (arg.toList.map (fun v => AttrRow.mk name v uuid)) st.attrs
      = none := by
    apply insertMany_none_of_dup
    obtain ⟨v, hv, a, ha, hn, hval⟩ := hdup
    exact ⟨AttrRow.mk name v uuid, List.mem_map.mpr ⟨v, hv, rfl⟩, a, ha, hn, hval⟩
  rw [hnone]

/-- C2 witness: `(mac, aa)` is already claimed by session `n1`, so a
second attach of `aa` for `n2` fails and leaves the store unchanged. -/
theorem C2_add_attribute_duplicate_witness :
    add_attribute "mac" (.many ["bb", "aa"]) "n2"
        (Store.mk [] [AttrRow.mk "mac" "aa" "n1"] []) =
      (Store.mk [] [AttrRow.mk "mac" "aa" "n1"] [], some ⟨"mac", ["bb", "aa"]⟩) :=
  C2_add_attribute_duplicate "mac" (.many ["bb", "aa"]) "n2"
    (Store.mk [] [AttrRow.mk "mac" "aa" "n1"] []) (by decide)

/-- C6 counterexample: the claim says a second `finished` call does not
change the recorded `finished_at` or `error`.  On the code, a first
finish at time 5 records `(some 5, some "boom")`, and a second finish at
time 9 with no error overwrites both to `(some 9, none)`. -/
theorem C6_counterexample :
    (finished (some "boom") 5 "n1"
        (Store.mk [NodeRow.mk "n1" 1 none none] [] [])).nodes =
      [NodeRow.mk "n1" 1 (some 5) (some "boom")] ∧
    (finished none 9 "n1" (finished (some "boom") 5 "n1"
        (Store.mk [NodeRow.mk "n1" 1 none none] [] []))).nodes =
      [NodeRow.mk "n1" 1 (some 9) none] ∧
    ¬(some (9 : Int) = some (5 : Int) ∧ (none : Option String) = some "boom") := by
  refine ⟨by decide, by decide, by decide⟩

/-- C6 (amended): a later `finished` on an already-finished session does
not crash (the update matches the row and the deletes are no-ops) and
does not resurrect the session — `finished_at` stays set and its
attribute and option rows stay purged — but it silently overwrites
`finished_at` with the new time and `error` with the new value rather
than keeping the first recording. -/
theorem C6_amended_finished (uuid : String) (e : Option String) (now t : Int) (st : Store)
    (_hfin : ∀ n ∈ st.nodes, n.uuid = uuid → n.finished_at = some t) :
    (∀ n ∈ (finished e now uuid st).nodes, n.uuid = uuid →
       n.finished_at = some now ∧ n.error = e ∧ n.finished_at ≠ none) ∧
    (∀ a ∈ (finished e now uuid st).attrs, a.uuid ≠ uuid) ∧
    (∀ o ∈ (finished e now uuid st).opts, o.uuid ≠ uuid) := by
  refine ⟨?_, ?_, ?_⟩
  · intro n hn hu
    unfold finished at hn
    simp only [List.mem_map] at hn
    obtain ⟨m, hm, rfl⟩ := hn
    by_cases hmu : (m.uuid == uuid) = true
    · rw [if_pos hmu]
      exact ⟨rfl, rfl, by simp⟩
    · rw [if_neg (by simp [hmu])] at hu
      exact absurd hu (by simpa using hmu)
  · intro a ha
    unfold finished at ha
    have := (List.mem_filter.mp ha).2
    simpa using this
  · intro o ho
    unfold finished at ho
    have := (List.mem_filter.mp ho).2
    simpa using this

/-- C6 amended witness at a session finished at time 5, re-finished at 9. -/
theorem C6_amended_finished_witness :
    (∀ n ∈ (finished none 9 "n1"
        (Store.mk [NodeRow.mk "n1" 1 (some 5) (some "boom")] [] [])).nodes,
       n.uuid = "n1" → n.finished_at = some 9 ∧ n.error = none ∧ n.finished_at ≠ none) ∧
    (∀ a ∈ (finished none 9 "n1"
        (Store.mk [NodeRow.mk "n1" 1 (some 5) (some "boom")] [] [])).attrs,
       a.uuid ≠ "n1") ∧
    (∀ o ∈ (finished none 9 "n1"
        (Store.mk [NodeRow.mk "n1" 1 (some 5) (some "boom")] [] [])).opts,
       o.uuid ≠ "n1") :=
  C6_amended_finished "n1" none 9 5
    (Store.mk [NodeRow.mk "n1" 1 (some 5) (some "boom")] [] []) (by decide)

/-- C9: running the sweep twice with the same clock and configuration
returns an empty timed-out list from the second run — every session the
first run timed out got `finished_at` set, so none is selected again —
and the second run, a total function, raises no error. -/
theorem C9_sweep_idempotent (now keep timeout : Int) (st : Store) :
    (clean_up now keep timeout (clean_up now keep timeout st).2).1 = [] := by
  by_cases ht : timeout ≤ 0
  · unfold clean_up sweepTimeout
    rw [if_pos ht, if_pos ht]
  · unfold clean_up
    apply sweepTimeout_fst_nil
    intro n hn
    have hn' : n ∈ (sweepTimeout now timeout (sweepDelete now keep st)).2.nodes := by
      unfold clean_up sweepDelete at hn
      exact (List.mem_filter.mp hn).1
    exact sweepTimeout_no_stale ht n hn'

/-- C10: whenever the synchronous part of `introspect` succeeds, the
`new_ipmi_credentials` option has been written to the created session —
with JSON `null` when no credentials were supplied — so reading the
options of the session always yields that key. -/
theorem C10_new_ipmi_credentials_always_set (env : IntroEnv) (uuid : String)
    (newCreds : Option (String × String)) (now : Int) (st st' : Store)
    (h : introspect env uuid newCreds now st = (st', none)) :
    (∃ v, getOption st' uuid "new_ipmi_credentials" = some v) ∧
    (newCreds = none → getOption st' uuid "new_ipmi_credentials" = some OptVal.null) := by
  unfold introspect at h
  rcases hnr : env.nodeResult with e | node
  · rw [hnr] at h
    simp at h
  · rw [hnr] at h
    dsimp only at h
    cases hpo : env.provisionOk
    · rw [hpo] at h
      simp at h
    · rw [hpo] at h
      simp only [reduceIte] at h
      rcases hcs : credsStep env uuid node newCreds with m | creds
      · rw [hcs] at h
        simp at h
      · rw [hcs] at h
        rcases han : add_node uuid [("bmc_address", bmcArg env.bmc)] now st with ⟨stx, d⟩
        rw [han] at h
        cases d
        · simp only [Prod.mk.injEq, if_true] at h
          have h1 : setOption uuid "new_ipmi_credentials" (credsVal creds) stx = st' := by
            simpa using h.1
          rw [← h1, getOption_setOption]
          refine ⟨⟨credsVal creds, rfl⟩, ?_⟩
          rintro rfl
          have hcnone : creds = none := by
            simp only [credsStep] at hcs
            split at hcs
            · cases hcs
              rfl
            · exact absurd hcs (by simp)
          rw [hcnone]
          rfl
        · simp at h

/-- C3: whatever the outcome of the external calls, the spawned closure
catches every exception of the background task and records it into the
session via finished with the error: afterwards the row of the session is either
still active (`finished_at` absent — success, or awaiting a manual power
on) or finished with a non-absent error.  The model of the closure is a
total function into `Store`, so no error propagates to any caller. -/
theorem C3_background_task_resolves_session (env : BgEnv) (uuid : String) (now : Int)
    (st : Store) (hactive : ∀ n ∈ st.nodes, n.uuid = uuid → n.finished_at = none) :
    ∀ n ∈ (handle_exceptions env uuid now st).nodes, n.uuid = uuid →
      n.finished_at = none ∨ (n.finished_at = some now ∧ ∃ m, n.error = some m) := by
  unfold handle_exceptions
  rcases hbg : background_introspect env uuid st with ⟨st', e⟩
  have hnodes : st'.nodes = st.nodes := by
    have := background_introspect_nodes env uuid st
    rwa [hbg] at this
  have hrec : ∀ msg, ∀ n ∈ (finished (some msg) now uuid st').nodes, n.uuid = uuid →
      n.finished_at = none ∨ (n.finished_at = some now ∧ ∃ m, n.error = some m) := by
    intro msg n hn hu
    unfold finished at hn
    simp only [List.mem_map] at hn
    obtain ⟨o, ho, rfl⟩ := hn
    by_cases hou : (o.uuid == uuid) = true
    · rw [if_pos hou]
      exact Or.inr ⟨rfl, msg, rfl⟩
    · rw [if_neg (by simp [hou])] at hu
      exact absurd hu (by simpa using hou)
  rcases e with _ | exc
  · intro n hn hu
    exact Or.inl (hactive n (hnodes ▸ hn) hu)
  · rcases exc with m | m
    · exact hrec m
    · exact hrec unexpectedMsg

/-- C3 witness: a failing power call on an active session leaves its row
finished with a recorded error. -/
theorem C3_background_task_resolves_session_witness :
    (NodeRow.mk "n1" 5 (some 9) (some (powerFailMsg "n1" "boom"))).finished_at = none ∨
    ((NodeRow.mk "n1" 5 (some 9) (some (powerFailMsg "n1" "boom"))).finished_at = some 9 ∧
      ∃ m, (NodeRow.mk "n1" 5 (some 9) (some (powerFailMsg "n1" "boom"))).error = some m) :=
  C3_background_task_resolves_session ⟨.ok ["aa"], none, none, some "boom"⟩ "n1" 9
    (Store.mk [NodeRow.mk "n1" 5 none none] [] []) (by decide)
    (NodeRow.mk "n1" 5 (some 9) (some (powerFailMsg "n1" "boom"))) (by decide) rfl

/-- C7: once the first phase of the background task has finished and no
new credentials are stored, a failing set-boot-device call does not
change the result of the task at all (only a warning is logged), while a
failing power-reboot call aborts the task with the fatal power error,
which the exception handler records into the session via `finished`. -/
theorem C7_boot_warning_power_fatal (env : BgEnv) (uuid : String) (now : Int)
    (st st2 : Store)
    (hphase : bgPhase1 env.portsResult env.firewallResult uuid st = (st2, none))
    (hcreds : newCredsTruthy st2 uuid = false) :
    (∀ b b', background_introspect { env with bootResult := b } uuid st =
             background_introspect { env with bootResult := b' } uuid st) ∧
    (env.powerResult = none → background_introspect env uuid st = (st2, none)) ∧
    (∀ e, env.powerResult = some e →
       background_introspect env uuid st = (st2, some (.utilsError (powerFailMsg uuid e))) ∧
       handle_exceptions env uuid now st =
         finished (some (powerFailMsg uuid e)) now uuid st2) := by
  have hbranch : ∀ b p, bgBranch b p uuid st2 =
      (st2, p.map (fun e => PyExc.utilsError (powerFailMsg uuid e))) := by
    intro b p
    unfold bgBranch
    rw [if_neg (by simp [hcreds])]
    cases b <;> cases p <;> rfl
  refine ⟨?_, ?_, ?_⟩
  · intro b b'
    unfold background_introspect
    simp only [BgEnv.mk.injEq] at *
    rw [show ({ env with bootResult := b } : BgEnv).portsResult = env.portsResult from rfl,
      show ({ env with bootResult := b } : BgEnv).firewallResult = env.firewallResult from rfl,
      show ({ env with bootResult := b' } : BgEnv).portsResult = env.portsResult from rfl,
      show ({ env with bootResult := b' } : BgEnv).firewallResult = env.firewallResult from rfl,
      hphase]
    dsimp only
    rw [show ({ env with bootResult := b } : BgEnv).powerResult = env.powerResult from rfl,
      show ({ env with bootResult := b' } : BgEnv).powerResult = env.powerResult from rfl]
    rw [hbranch, hbranch]
  · intro hp
    unfold background_introspect
    rw [hphase]
    dsimp only
    rw [hbranch, hp]
    rfl
  · intro e hp
    have hbg : background_introspect env uuid st =
        (st2, some (.utilsError (powerFailMsg uuid e))) := by
      unfold background_introspect
      rw [hphase]
      dsimp only
      rw [hbranch, hp]
      rfl
    refine ⟨hbg, ?_⟩
    unfold handle_exceptions
    rw [hbg]

/-- C7 witness: with no MACs, no stored credentials, a failed boot call
and a failed power call, the task aborts with the fatal power error. -/
theorem C7_boot_warning_power_fatal_witness :
    background_introspect ⟨.ok [], none, some "bootfail", some "powerfail"⟩ "n1"
        (Store.mk [NodeRow.mk "n1" 5 none none] [] []) =
      (Store.mk [NodeRow.mk "n1" 5 none none] [] [],
        some (.utilsError (powerFailMsg "n1" "powerfail"))) :=
  ((C7_boot_warning_power_fatal ⟨.ok [], none, some "bootfail", some "powerfail"⟩ "n1" 9
      (Store.mk [NodeRow.mk "n1" 5 none none] [] [])
      (Store.mk [NodeRow.mk "n1" 5 none none] [] []) rfl rfl).2.2
    "powerfail" rfl).1

/-- C10 witness: a plain introspection (no credentials) leaves the
option present with JSON `null`. -/
theorem C10_new_ipmi_credentials_always_set_witness :
    (∃ v, getOption
        (introspect ⟨.ok ⟨"n1", false, none⟩, true, true, "", false, some "1.2.3.4"⟩
          "n1" none 5 (Store.mk [] [] [])).1 "n1" "new_ipmi_credentials" = some v) ∧
    ((none : Option (String × String)) = none → getOption
        (introspect ⟨.ok ⟨"n1", false, none⟩, true, true, "", false, some "1.2.3.4"⟩
          "n1" none 5 (Store.mk [] [] [])).1 "n1" "new_ipmi_credentials" =
        some OptVal.null) :=
  C10_new_ipmi_credentials_always_set
    ⟨.ok ⟨"n1", false, none⟩, true, true, "", false, some "1.2.3.4"⟩
    "n1" none 5 (Store.mk [] [] []) _ rfl

/-- C8: credential validation succeeds only when credential setting is
globally enabled, the machine is in maintenance mode, and the password is
purely alphanumeric with length between 1 and 20; the password
`"abc def!"` is rejected while `"abc123"` is accepted; and when
validation fails, `introspect` aborts with that error before the session
is created, leaving the store unchanged. -/
theorem C8_credential_validation :
    (∀ (enabled : Bool) (node : IrNode) (u p : String) (r : String × String),
       validate_ipmi_credentials enabled node u p = .ok r →
       enabled = true ∧ node.maintenance = true ∧
         (∀ c ∈ p.toList, c.isAlphanum = true) ∧ 1 ≤ p.length ∧ p.length ≤ 20) ∧
    (∃ m, validate_ipmi_credentials true ⟨"n1", true, none⟩ "admin" "abc def!" =
        .error m) ∧
    (validate_ipmi_credentials true ⟨"n1", true, none⟩ "admin" "abc123" =
        .ok ("admin", "abc123")) ∧
    (∀ (node : IrNode) (uuid u p m : String) (enabled pwr : Bool)
        (reason : String) (bmc : Option String) (now : Int) (st : Store),
       validate_ipmi_credentials enabled node u p = .error m →
       introspect ⟨Except.ok node, true, pwr, reason, enabled, bmc⟩ uuid
           (some (u, p)) now st = (st, some m)) := by
  refine ⟨?_, ⟨_, rfl⟩, rfl, ?_⟩
  · intro enabled node u p r h
    unfold validate_ipmi_credentials at h
    split at h
    · exact absurd h (by simp)
    split at h
    · exact absurd h (by simp)
    split at h
    · exact absurd h (by simp)
    split at h
    · exact absurd h (by simp)
    split at h
    · exact absurd h (by simp)
    rename_i hen hm hu hw hl
    refine ⟨by simpa using hen, by simpa using hm, ?_, ?_⟩
    · have hwe : (wrongChars p).isEmpty = true := by
        rcases hEE : (wrongChars p).isEmpty
        · rw [hEE] at hw
          simp at hw
        · rfl
      have hnil : p.toList.filter (fun c => !c.isAlphanum) = [] :=
        List.isEmpty_iff.mp hwe
      intro c hc
      have h3 := List.filter_eq_nil_iff.mp hnil c hc
      simpa using h3
    · have hlen : (decide (0 < p.length) && decide (p.length ≤ 20)) = true := by
        rcases hEE : (decide (0 < p.length) && decide (p.length ≤ 20))
        · rw [hEE] at hl
          simp at hl
        · rfl
      rw [Bool.and_eq_true, decide_eq_true_eq, decide_eq_true_eq] at hlen
      exact ⟨hlen.1, hlen.2⟩
  · intro node uuid u p m enabled pwr reason bmc now st hval
    unfold introspect
    dsimp only
    rw [if_pos rfl]
    have hcs : credsStep ⟨Except.ok node, true, pwr, reason, enabled, bmc⟩ uuid node
        (some (u, p)) = .error m := by
      unfold credsStep
      dsimp only
      rw [hval]
      rfl
    rw [hcs]

/-- C8 witness: the accepted password satisfies all the claimed
necessary conditions. -/
theorem C8_credential_validation_witness :
    true = true ∧ (IrNode.mk "n1" true none).maintenance = true ∧
      (∀ c ∈ "abc123".toList, c.isAlphanum = true) ∧
      1 ≤ "abc123".length ∧ "abc123".length ≤ 20 :=
  C8_credential_validation.1 true ⟨"n1", true, none⟩ "admin" "abc123"
    ("admin", "abc123") rfl

/-- C1: the candidate set of `find_node` is exactly the union across all
(non-falsy) attribute criteria of the sessions holding any listed
`(name, value)` — an OR across names, not an intersection; the call fails
`NotFound` on an empty union, fails with an ambiguity error listing every
candidate id when more than one id remains, fails with the
already-finished error carrying the row's finish timestamp when the
unique candidate is finished (timestamps are nonzero in every reachable
store, matching the Python truthiness test), and otherwise returns a
handle with the unique candidate's current `started_at`. -/
theorem C1_find_node_union (criteria : List (String × AttrArg)) (st : Store)
    (hUniq : nodesUnique st.nodes = true) :
    (∀ u, u ∈ foundIds criteria st.attrs ↔ specCandidate criteria st u) ∧
    ((∀ u, ¬specCandidate criteria st u) → find_node criteria st = .error .notFound) ∧
    (∀ u₁ u₂, u₁ ≠ u₂ → specCandidate criteria st u₁ → specCandidate criteria st u₂ →
       ∃ l, find_node criteria st = .error (.multipleMatch l) ∧
         ∀ u, specCandidate criteria st u → u ∈ l) ∧
    (∀ u n t, (∀ w, specCandidate criteria st w ↔ w = u) → n ∈ st.nodes → n.uuid = u →
       n.finished_at = some t → t ≠ 0 →
       find_node criteria st = .error (.alreadyFinished u t)) ∧
    (∀ u n, (∀ w, specCandidate criteria st w ↔ w = u) → n ∈ st.nodes → n.uuid = u →
       n.finished_at = none → find_node criteria st = .ok ⟨u, n.started_at⟩) := by
  have hmem : ∀ u, u ∈ foundIds criteria st.attrs ↔ specCandidate criteria st u := by
    intro u
    rw [mem_foundIds, specCandidate]
  have hsingle : ∀ u, (∀ w, specCandidate criteria st w ↔ w = u) →
      foundIds criteria st.attrs = [u] := by
    intro u hiff
    apply nodup_eq_singleton
    · unfold foundIds
      exact List.nodup_dedup _
    · intro x
      rw [hmem x]
      exact hiff x
  refine ⟨hmem, ?_, ?_, ?_, ?_⟩
  · intro hnone
    have hnil : foundIds criteria st.attrs = [] :=
      List.eq_nil_iff_forall_not_mem.mpr (fun u hu => hnone u ((hmem u).mp hu))
    unfold find_node
    rw [hnil]
  · intro u₁ u₂ hne h1 h2
    rcases hf : foundIds criteria st.attrs with _ | ⟨x, rest⟩
    · exact absurd ((hmem u₁).mpr h1) (by rw [hf]; simp)
    rcases rest with _ | ⟨y, t⟩
    · have e1 : u₁ = x := by
        have := (hmem u₁).mpr h1
        rw [hf] at this
        simpa using this
      have e2 : u₂ = x := by
        have := (hmem u₂).mpr h2
        rw [hf] at this
        simpa using this
      exact absurd (e1.trans e2.symm) hne
    · refine ⟨x :: y :: t, ?_, ?_⟩
      · unfold find_node
        rw [hf]
        rfl
      · intro u hu
        have := (hmem u).mpr hu
        rwa [hf] at this
  · intro u n t hiff hn hnu hfin ht
    unfold find_node
    rw [hsingle u hiff]
    dsimp only
    rw [if_pos (show (List.isEmpty ([] : List String)) = true from rfl),
      find?_nodes hUniq hn hnu]
    dsimp only
    rw [hfin]
    dsimp only
    rw [if_neg (by simp [ht])]
  · intro u n hiff hn hnu hfin
    unfold find_node
    rw [hsingle u hiff]
    dsimp only
    rw [if_pos (show (List.isEmpty ([] : List String)) = true from rfl),
      find?_nodes hUniq hn hnu]
    dsimp only
    rw [hfin]

/-- C1 witness: two sessions each matching one of two criteria are both
candidates, so the lookup is ambiguous and lists both ids. -/
theorem C1_find_node_union_witness :
    ∃ l, find_node [("mac", AttrArg.many ["aa"]), ("bmc_address", AttrArg.one "b")]
        (Store.mk [NodeRow.mk "n1" 1 none none, NodeRow.mk "n2" 2 none none]
          [AttrRow.mk "mac" "aa" "n1", AttrRow.mk "bmc_address" "b" "n2"] []) =
          .error (.multipleMatch l) ∧
      ∀ u, specCandidate [("mac", AttrArg.many ["aa"]), ("bmc_address", AttrArg.one "b")]
        (Store.mk [NodeRow.mk "n1" 1 none none, NodeRow.mk "n2" 2 none none]
          [AttrRow.mk "mac" "aa" "n1", AttrRow.mk "bmc_address" "b" "n2"] []) u → u ∈ l :=
  (C1_find_node_union
      [("mac", AttrArg.many ["aa"]), ("bmc_address", AttrArg.one "b")]
      (Store.mk [NodeRow.mk "n1" 1 none none, NodeRow.mk "n2" 2 none none]
        [AttrRow.mk "mac" "aa" "n1", AttrRow.mk "bmc_address" "b" "n2"] [])
      (by decide)).2.2.1 "n1" "n2" (by decide) (by decide) (by decide)

/-- C4: the sweep (a) deletes every row whose `finished_at` is older than
the retention threshold `now - keep`; (b) for every active session with
`started_at` older than `now - timeout` it sets `finished_at = now` and
the fixed timeout error, deletes all of its attribute and option rows and
returns its uuid in the timed-out list; and a non-positive configured
timeout disables part (b), returning the empty list. -/
theorem C4_clean_up_sweep (now keep timeout : Int) (st : Store)
    (hUniq : nodesUnique st.nodes = true) :
    (∀ n ∈ st.nodes, finishedBefore n (now - keep) = true →
       ∀ m ∈ (clean_up now keep timeout st).2.nodes, m.uuid ≠ n.uuid) ∧
    (0 < timeout → ∀ n ∈ st.nodes, n.finished_at = none →
       n.started_at < now - timeout →
       n.uuid ∈ (clean_up now keep timeout st).1 ∧
       (∃ m ∈ (clean_up now keep timeout st).2.nodes,
          m.uuid = n.uuid ∧ m.finished_at = some now ∧ m.error = some timeoutErrorMsg) ∧
       (∀ a ∈ (clean_up now keep timeout st).2.attrs, a.uuid ≠ n.uuid) ∧
       (∀ o ∈ (clean_up now keep timeout st).2.opts, o.uuid ≠ n.uuid)) ∧
    (timeout ≤ 0 → (clean_up now keep timeout st).1 = []) := by
  refine ⟨?_, ?_, ?_⟩
  · intro n hn hold m hm heq
    obtain ⟨o, ho, hmo⟩ := sweepTimeout_nodes_sub m hm
    have ho2 := List.mem_filter.mp ho
    have hon : o = n := nodesUnique_eq hUniq ho2.1 hn (hmo ▸ heq)
    rw [hon, hold] at ho2
    simpa using ho2.2
  · intro ht n hn hfin hstale
    have hsurv : n ∈ (sweepDelete now keep st).nodes :=
      List.mem_filter.mpr ⟨hn, by simp [finishedBefore, hfin]⟩
    have hpred : timedOutPred (now - timeout) n = true := by
      simp [timedOutPred, hstale, hfin]
    have hid : n.uuid ∈ timedOutIds (now - timeout) (sweepDelete now keep st) :=
      List.mem_map.mpr ⟨n, List.mem_filter.mpr ⟨hsurv, hpred⟩, rfl⟩
    have hne : ¬(timedOutIds (now - timeout) (sweepDelete now keep st)).isEmpty = true := by
      intro hE
      rw [List.isEmpty_iff.mp hE] at hid
      simp at hid
    unfold clean_up sweepTimeout
    rw [if_neg (not_le.mpr ht), if_neg hne]
    refine ⟨hid, ?_, ?_, ?_⟩
    · refine ⟨_, List.mem_map.mpr ⟨n, hsurv, rfl⟩, ?_⟩
      rw [if_pos hpred]
      exact ⟨rfl, rfl, rfl⟩
    · intro a ha
      have := (List.mem_filter.mp ha).2
      rw [Bool.not_eq_true', decide_eq_false_iff_not] at this
      exact fun hc => this (hc ▸ hid)
    · intro o ho
      have := (List.mem_filter.mp ho).2
      rw [Bool.not_eq_true', decide_eq_false_iff_not] at this
      exact fun hc => this (hc ▸ hid)
  · intro ht
    unfold clean_up sweepTimeout
    rw [if_pos ht]

/-- C4 witness: a stale active session is timed out, recorded, and its
attribute and option rows are purged; a finished-old row disappears. -/
theorem C4_clean_up_sweep_witness :
    (∀ n ∈ (Store.mk [NodeRow.mk "n1" 1 none none]
        [AttrRow.mk "mac" "aa" "n1"] [OptRow.mk "n1" "k" OptVal.null]).nodes,
      finishedBefore n (100 - 50) = true →
      ∀ m ∈ (clean_up 100 50 10 (Store.mk [NodeRow.mk "n1" 1 none none]
          [AttrRow.mk "mac" "aa" "n1"] [OptRow.mk "n1" "k" OptVal.null])).2.nodes,
        m.uuid ≠ n.uuid) ∧
    (0 < (10 : Int) → ∀ n ∈ (Store.mk [NodeRow.mk "n1" 1 none none]
        [AttrRow.mk "mac" "aa" "n1"] [OptRow.mk "n1" "k" OptVal.null]).nodes,
      n.finished_at = none → n.started_at < 100 - 10 →
      n.uuid ∈ (clean_up 100 50 10 (Store.mk [NodeRow.mk "n1" 1 none none]
          [AttrRow.mk "mac" "aa" "n1"] [OptRow.mk "n1" "k" OptVal.null])).1 ∧
      (∃ m ∈ (clean_up 100 50 10 (Store.mk [NodeRow.mk "n1" 1 none none]
          [AttrRow.mk "mac" "aa" "n1"] [OptRow.mk "n1" "k" OptVal.null])).2.nodes,
         m.uuid = n.uuid ∧ m.finished_at = some 100 ∧ m.error = some timeoutErrorMsg) ∧
      (∀ a ∈ (clean_up 100 50 10 (Store.mk [NodeRow.mk "n1" 1 none none]
          [AttrRow.mk "mac" "aa" "n1"] [OptRow.mk "n1" "k" OptVal.null])).2.attrs,
        a.uuid ≠ n.uuid) ∧
      (∀ o ∈ (clean_up 100 50 10 (Store.mk [NodeRow.mk "n1" 1 none none]
          [AttrRow.mk "mac" "aa" "n1"] [OptRow.mk "n1" "k" OptVal.null])).2.opts,
        o.uuid ≠ n.uuid)) ∧
    ((10 : Int) ≤ 0 → (clean_up 100 50 10 (Store.mk [NodeRow.mk "n1" 1 none none]
        [AttrRow.mk "mac" "aa" "n1"] [OptRow.mk "n1" "k" OptVal.null])).1 = []) :=
  C4_clean_up_sweep 100 50 10
    (Store.mk [NodeRow.mk "n1" 1 none none]
      [AttrRow.mk "mac" "aa" "n1"] [OptRow.mk "n1" "k" OptVal.null]) (by decide)

/-- C5: when `add_node` succeeds it has replaced any prior session with
the given id inside one transaction: the surviving row for that id is
exactly the fresh one with `started_at = now` and absent
`finished_at`/`error`, every non-empty initial attribute is attached, the
prior option rows are gone, and looking up any attribute value the old
session held now returns `NotFound` unless the new session also claims
it.  (The `(name, value)` primary key of the pre-state guarantees no
third session held the value.) -/
theorem C5_add_node_replaces (uuid : String) (att : List (String × AttrArg)) (now : Int)
    (st st' : Store)
    (hAttrU : attrsUnique st.attrs = true)
    (hsucc : add_node uuid att now st = (st', none)) :
    (NodeRow.mk uuid now none none ∈ st'.nodes ∧
       ∀ m ∈ st'.nodes, m.uuid = uuid → m = NodeRow.mk uuid now none none) ∧
    (∀ p ∈ att, p.2.falsy = false → ∀ v ∈ p.2.toList, AttrRow.mk p.1 v uuid ∈ st'.attrs) ∧
    (∀ o ∈ st'.opts, o.uuid ≠ uuid) ∧
    (∀ a ∈ st.attrs, a.uuid = uuid →
       (∀ q ∈ att, q.2.falsy = false → ¬(q.1 = a.name ∧ a.value ∈ q.2.toList)) →
       find_node [(a.name, AttrArg.one a.value)] st' = .error .notFound) := by
  unfold add_node at hsucc
  dsimp only at hsucc
  rcases hAA : attachAll att uuid (st.attrs.filter (fun a => a.uuid != uuid)) with d | tt <;>
    rw [hAA] at hsucc
  · exact absurd (congrArg Prod.snd hsucc) (by simp)
  have hst' : st' = Store.mk
      (st.nodes.filter (fun n => n.uuid != uuid) ++ [NodeRow.mk uuid now none none])
      tt (st.opts.filter (fun o => o.uuid != uuid)) :=
    (congrArg Prod.fst hsucc).symm
  have htt : tt = st.attrs.filter (fun a => a.uuid != uuid) ++ newRowsList att uuid :=
    attachAll_ok hAA
  refine ⟨⟨?_, ?_⟩, ?_, ?_, ?_⟩
  · rw [hst']
    simp
  · intro m hm hmu
    rw [hst'] at hm
    rcases List.mem_append.mp hm with hmf | hms
    · have := (List.mem_filter.mp hmf).2
      rw [bne_iff_ne] at this
      exact absurd hmu this
    · simpa using hms
  · intro p hp hf v hv
    rw [hst', htt]
    exact List.mem_append_right _ (mem_newRowsList.mpr ⟨p, hp, hf, v, hv, rfl⟩)
  · intro o ho
    rw [hst'] at ho
    have := (List.mem_filter.mp ho).2
    rwa [bne_iff_ne] at this
  · intro a ha hau hnot
    have hnil : foundIds [(a.name, AttrArg.one a.value)] st'.attrs = [] := by
      rw [List.eq_nil_iff_forall_not_mem]
      intro u hu
      rw [mem_foundIds] at hu
      obtain ⟨p, hp, hf, b, hb, hbn, hbv, hbu⟩ := hu
      have hp' : p = (a.name, AttrArg.one a.value) := by simpa using hp
      subst hp'
      have hbv' : b.value = a.value := by simpa [AttrArg.toList] using hbv
      rw [hst', htt] at hb
      rcases List.mem_append.mp hb with hbf | hbnew
      · obtain ⟨hbmem, hbne⟩ := List.mem_filter.mp hbf
        have hba : b = a := attrsUnique_eq hAttrU hbmem ha hbn hbv'
        rw [hba, bne_iff_ne] at hbne
        exact hbne hau
      · rw [mem_newRowsList] at hbnew
        obtain ⟨q, hq, hqf, v, hv, hbq⟩ := hbnew
        subst hbq
        exact hnot q hq hqf ⟨hbn, hbv' ▸ hv⟩
    unfold find_node
    rw [hnil]

/-- C5 witness: replacing session `n1` removes its old `mac` attribute
and option; the old MAC is no longer findable. -/
theorem C5_add_node_replaces_witness :
    (NodeRow.mk "n1" 10 none none ∈ (Store.mk [NodeRow.mk "n1" 10 none none]
        [AttrRow.mk "bmc_address" "9.9" "n1"] []).nodes ∧
       ∀ m ∈ (Store.mk [NodeRow.mk "n1" 10 none none]
          [AttrRow.mk "bmc_address" "9.9" "n1"] []).nodes, m.uuid = "n1" →
         m = NodeRow.mk "n1" 10 none none) ∧
    (∀ p ∈ [("bmc_address", AttrArg.one "9.9")], p.2.falsy = false →
       ∀ v ∈ p.2.toList, AttrRow.mk p.1 v "n1" ∈ (Store.mk [NodeRow.mk "n1" 10 none none]
          [AttrRow.mk "bmc_address" "9.9" "n1"] []).attrs) ∧
    (∀ o ∈ (Store.mk [NodeRow.mk "n1" 10 none none]
        [AttrRow.mk "bmc_address" "9.9" "n1"] []).opts, o.uuid ≠ "n1") ∧
    (∀ a ∈ (Store.mk [NodeRow.mk "n1" 1 none none] [AttrRow.mk "mac" "aa" "n1"]
        [OptRow.mk "n1" "k" OptVal.null]).attrs, a.uuid = "n1" →
       (∀ q ∈ [("bmc_address", AttrArg.one "9.9")], q.2.falsy = false →
          ¬(q.1 = a.name ∧ a.value ∈ q.2.toList)) →
       find_node [(a.name, AttrArg.one a.value)]
           (Store.mk [NodeRow.mk "n1" 10 none none]
             [AttrRow.mk "bmc_address" "9.9" "n1"] []) = .error .notFound) :=
  C5_add_node_replaces "n1" [("bmc_address", AttrArg.one "9.9")] 10
    (Store.mk [NodeRow.mk "n1" 1 none none] [AttrRow.mk "mac" "aa" "n1"]
      [OptRow.mk "n1" "k" OptVal.null])
    (Store.mk [NodeRow.mk "n1" 10 none none] [AttrRow.mk "bmc_address" "9.9" "n1"] [])
    (by decide) (by decide)

end IronicInspector
